import Mathlib

/-!
Shallow embedding of the dom-density-map core renderer
(src/dom_density_map/core.py): grid geometry, rasterizer, interactive
index, glyph mapping, dense and sparse text output, and the point-query
formatter.  Python integers embed as Lean Int; the real-valued cell size
vw / cols is kept as the exact rational pair (vw, cols) and every float
division of the source is evaluated in exact rational arithmetic.
Python int() truncates toward zero (Int.tdiv), // floors (Int.fdiv) and
round() rounds half to even (pyRound).  A Python runtime error
(ZeroDivisionError, IndexError) is modelled as none.
-/

/-- Element kind produced by the DOM walker: Button, Field, Link, Image, Text. -/
inductive Kind where
  | B
  | F
  | L
  | I
  | T
deriving DecidableEq, Repr

/-- The _PRIORITY table of core.py: higher priority wins cell ownership. -/
def priority : Kind → Nat
  | .T => 1
  | .I => 2
  | .L => 3
  | .F => 4
  | .B => 5

/-- One element record of the DOM walker payload. -/
structure Element where
  x : Int
  y : Int
  w : Int
  h : Int
  kind : Option Kind
  interactive : Bool
  label : String
deriving DecidableEq, Repr

/-- The record returned by the DOM walker: viewport size, visible count, elements. -/
structure WalkerData where
  vw : Int
  vh : Int
  count : Int
  elements : List Element
deriving DecidableEq, Repr

/-- Python round() applied to the exact rational a / b (b ≠ 0):
nearest integer, ties to even. -/
def pyRound (a b : Int) : Int :=
  let n := if b < 0 then -a else a
  let d := if b < 0 then -b else b
  let q := Int.fdiv n d
  let r := n - q * d
  if 2 * r < d then q
  else if d < 2 * r then q + 1
  else if q % 2 = 0 then q
  else q + 1

/-- Derived grid geometry; cell_px is the exact rational vw / cols. -/
structure Geom where
  vw : Int
  cols : Int
  rows : Int
deriving DecidableEq, Repr

/-- Grid geometry of render_density_map and render_sparse_map
(core.py lines 243-248 and 379-383):
cols = min(max_cols, vw); cell_px = vw / cols; rows = max(1, round(vh / cell_px));
if cols * rows > 16000 then rows = 16000 // cols.  none models the
ZeroDivisionError raised when cols = 0 (at vw / cols) or when cell_px = 0,
that is vw = 0 (at vh / cell_px). -/
def gridGeom (vw vh maxCols : Int) : Option Geom :=
  let cols := min maxCols vw
  if cols = 0 then none
  else if vw = 0 then none
  else
    let rows0 := max 1 (pyRound (vh * cols) vw)
    let rows := if 16000 < cols * rows0 then Int.fdiv 16000 cols else rows0
    some { vw := vw, cols := cols, rows := rows }

/-- The clamped grid cell span of one element (core.py lines 262-270):
c0 = int(x / cell_px), c1 = int((x + w - 1) / cell_px), likewise rows with
the same divisor, each truncation evaluated exactly as tdiv(v * cols, vw),
then clamped into [0, cols-1] and [0, rows-1]. -/
structure Span where
  c0 : Int
  c1 : Int
  r0 : Int
  r1 : Int
deriving DecidableEq, Repr

def cellSpan (g : Geom) (el : Element) : Span :=
  { c0 := max 0 (min (Int.tdiv (el.x * g.cols) g.vw) (g.cols - 1))
    c1 := max 0 (min (Int.tdiv ((el.x + el.w - 1) * g.cols) g.vw) (g.cols - 1))
    r0 := max 0 (min (Int.tdiv (el.y * g.cols) g.vw) (g.rows - 1))
    r1 := max 0 (min (Int.tdiv ((el.y + el.h - 1) * g.cols) g.vw) (g.rows - 1)) }

/-- The two parallel matrices of the rasterizer, as functions of (row, col). -/
structure Raster where
  density : Int × Int → Nat
  kinds : Int × Int → Option Kind

def initRaster : Raster :=
  { density := fun _ => 0, kinds := fun _ => none }

/-- Kind update of one cell (core.py 275-278): a kind-less element leaves the
cell kind unchanged; a carried kind replaces the occupant only when its
priority is strictly higher. -/
def combineKind (cur : Option Kind) (kind : Option Kind) : Option Kind :=
  match kind with
  | none => cur
  | some k =>
    match cur with
    | none => some k
    | some c => if priority c < priority k then some k else some c

/-- One inner-loop step of the rasterizer (core.py 272-278):
density[r][c] += 1 and the kind update.  An index outside the grid is an
IndexError on the nested Python lists, modelled as none. -/
def paintCell (g : Geom) (kind : Option Kind) (st : Raster) (r c : Int) : Option Raster :=
  if 0 ≤ r ∧ r < g.rows ∧ 0 ≤ c ∧ c < g.cols then
    some
      { density := fun p => if p = (r, c) then st.density p + 1 else st.density p
        kinds := fun p => if p = (r, c) then combineKind (st.kinds p) kind else st.kinds p }
  else none

/-- Python range(lo, hi + 1) over integers. -/
def intRange (lo hi : Int) : List Int :=
  (List.range (hi + 1 - lo).toNat).map (fun k : Nat => lo + (k : Int))

/-- Rasterize one element: nested loops over its clamped span, rows outer,
columns inner (core.py 272-278). -/
def paintElem (g : Geom) (st : Raster) (el : Element) : Option Raster :=
  let s := cellSpan g el
  (intRange s.r0 s.r1).foldlM
    (fun st r => (intRange s.c0 s.c1).foldlM (fun st c => paintCell g el.kind st r c) st)
    st

/-- One interactive-index entry (core.py 280-289): grid center
int((x + w/2) / cell_px) evaluated exactly as tdiv((2x + w) * cols, 2 * vw),
pixel center int(x + w/2) as tdiv(2x + w, 2).  No clamping is applied. -/
structure IEntry where
  kind : Option Kind
  label : String
  gc : Int
  gr : Int
  px : Int
  py : Int
deriving DecidableEq, Repr

def mkEntry (g : Geom) (el : Element) : IEntry :=
  { kind := el.kind
    label := el.label
    gc := Int.tdiv ((2 * el.x + el.w) * g.cols) (2 * g.vw)
    gr := Int.tdiv ((2 * el.y + el.h) * g.cols) (2 * g.vw)
    px := Int.tdiv (2 * el.x + el.w) 2
    py := Int.tdiv (2 * el.y + el.h) 2 }

/-- The main element loop of both renderers (core.py 256-289 and 389-414):
rasterize each element and collect the interactive entries in input order. -/
def processElements (g : Geom) (els : List Element) : Option (Raster × List IEntry) :=
  els.foldlM
    (fun acc el =>
      (paintElem g acc.1 el).bind fun st =>
        some (st, if el.interactive then acc.2 ++ [mkEntry g el] else acc.2))
    (initRaster, [])

/-- Does the clamped span of el contain cell (r, c)?  This is the covered
cell range of the claim text. -/
def coversCell (g : Geom) (el : Element) (r c : Int) : Bool :=
  decide ((cellSpan g el).c0 ≤ c ∧ c ≤ (cellSpan g el).c1 ∧
    (cellSpan g el).r0 ≤ r ∧ r ≤ (cellSpan g el).r1)

/-- Number of elements of els whose covered cell range contains (r, c)
(claim wording for the density value). -/
def countCovering (g : Geom) (els : List Element) (r c : Int) : Nat :=
  els.countP (fun el => coversCell g el r c)

/-- Claim wording for the dominant kind of a cell: none exactly when no
covering element carries a kind, otherwise an attained kind of maximal
priority among the covering elements. -/
def DominantOk (g : Geom) (els : List Element) (r c : Int) : Option Kind → Prop
  | none => ∀ el ∈ els, coversCell g el r c = true → el.kind = none
  | some k =>
    (∃ el ∈ els, coversCell g el r c = true ∧ el.kind = some k) ∧
    ∀ el ∈ els, coversCell g el r c = true →
      ∀ k2 : Kind, el.kind = some k2 → priority k2 ≤ priority k

/-- The net effect of the element loop on one cell kind, as a left fold. -/
def kindFold (g : Geom) (r c : Int) (els : List Element) (init : Option Kind) : Option Kind :=
  els.foldl (fun cur el => if coversCell g el r c then combineKind cur el.kind else cur) init

/-- Reading order used by interactive.sort (core.py 292, 416): the Python
tuple key (gr, gc) compared lexicographically. -/
def entryLe (a b : IEntry) : Prop :=
  a.gr < b.gr ∨ (a.gr = b.gr ∧ a.gc ≤ b.gc)

instance : DecidableRel entryLe := fun a b => by
  unfold entryLe
  exact inferInstance

instance : IsTotal IEntry entryLe where
  total a b := by
    unfold entryLe
    omega

instance : IsTrans IEntry entryLe where
  trans a b c hab hbc := by
    unfold entryLe at hab hbc ⊢
    omega

/-- Sort by (gr, gc) and truncate to the first 50 (core.py 291-293, 416-417).
Python list.sort is a stable sort on this key and insertionSort is stable in
the same way, so the published list coincides. -/
def publishInteractive (inter : List IEntry) : List IEntry :=
  (List.insertionSort entryLe inter).take 50

/-- Per-kind sequence counters (core.py 339-344, 479-483): one counter per
kind key, kind-less entries sharing the single unknown bucket (key none);
each entry receives the incremented counter of its key. -/
def assignIds (ctr : Option Kind → Nat) : List IEntry → List (Nat × IEntry)
  | [] => []
  | e :: rest =>
    (ctr e.kind + 1, e) :: assignIds (Function.update ctr e.kind (ctr e.kind + 1)) rest

/-- Single-letter code of a kind key; the unknown bucket prints as a
question mark. -/
def kindCode : Option Kind → String
  | some Kind.B => ("B")
  | some Kind.F => ("F")
  | some Kind.L => ("L")
  | some Kind.I => ("I")
  | some Kind.T => ("T")
  | none => ("?")

/-- _density_char (core.py 215-234). -/
def densityChar (count : Nat) (blocks : Bool) : Char :=
  if blocks then
    if count = 0 then ' '
    else if count = 1 then '░'
    else if count ≤ 3 then '▒'
    else if count ≤ 7 then '▓'
    else '█'
  else
    if count = 0 then ' '
    else if count = 1 then '.'
    else if count ≤ 3 then ':'
    else if count ≤ 7 then '#'
    else '@'

/-- _BLOCK_TYPES (core.py 212). -/
def blockType : Kind → Char
  | .B => '▣'
  | .F => '▤'
  | .L => '▨'
  | .I => '▧'
  | .T => '▥'

/-- In ASCII mode the row builder appends the kind letter itself
(core.py 330, 427). -/
def kindLetter : Kind → Char
  | .B => 'B'
  | .F => 'F'
  | .L => 'L'
  | .I => 'I'
  | .T => 'T'

/-- Cell glyph (core.py 327-332, 424-429): a present kind overrides the
density character. -/
def cellChar (blocks : Bool) (k : Option Kind) (d : Nat) : Char :=
  match k with
  | some kk => if blocks then blockType kk else kindLetter kk
  | none => densityChar d blocks

/-- Decimal digit character. -/
def digitChar (d : Nat) : Char := Char.ofNat (48 + d)

/-- Most-significant-first decimal digits of n, fuel-structured so that it
unfolds by kernel reduction; any fuel ≥ n gives the digits of n. -/
def natDigsAux : Nat → Nat → List Nat
  | 0, _ => []
  | fuel + 1, n => if n = 0 then [] else natDigsAux fuel (n / 10) ++ [n % 10]

def natDigs (n : Nat) : List Nat := natDigsAux n n

/-- str(count) for count ≥ 1: its decimal digit characters. -/
def decimalChars (n : Nat) : List Char := (natDigs n).map digitChar

/-- One emitted part of _rle_row (core.py 366, 369): the character alone for
a run of one, else the character followed by the decimal count. -/
def rleSeg (cur : Char) (count : Nat) : List Char :=
  if count = 1 then [cur] else cur :: decimalChars count

/-- The encoder loop of _rle_row (core.py 359-369) carrying its (cur, count)
state. -/
def rleRun (cur : Char) (count : Nat) : List Char → List Char
  | [] => rleSeg cur count
  | ch :: rest =>
    if ch = cur then rleRun cur (count + 1) rest
    else rleSeg cur count ++ rleRun ch 1 rest

/-- _rle_row (core.py 355-370) as the characters of the returned string. -/
def rleRowChars : List Char → List Char
  | [] => []
  | c :: rest => rleRun c 1 rest

/-- Modelled from the spec: the flush of a decoded run for the run-length
format of section 4.6, which the repository itself does not implement: a
pending glyph without a count stands for one copy, with a count n for n
copies. -/
def flushRun : Option (Char × Option Nat) → List Char
  | none => []
  | some (g, none) => [g]
  | some (g, some n) => List.replicate n g

/-- Modelled from the spec: one decoding step: a digit extends the count of
the pending glyph, any other character flushes the pending run and becomes
the new pending glyph. -/
def decodeStep (st : Option (Char × Option Nat)) (c : Char) :
    List Char × Option (Char × Option Nat) :=
  if c.isDigit then
    match st with
    | some (g, acc) => ([], some (g, some (10 * acc.getD 0 + (c.toNat - 48))))
    | none => ([], none)
  else (flushRun st, some (c, none))

/-- Modelled from the spec: left-to-right decoding pass returning the output
so far and the pending state. -/
def decodeFold (st : Option (Char × Option Nat)) (l : List Char) :
    List Char × Option (Char × Option Nat) :=
  l.foldl (fun acc c => (acc.1 ++ (decodeStep acc.2 c).1, (decodeStep acc.2 c).2)) ([], st)

/-- Modelled from the spec: the decoder of the run-length row format. -/
def rleDecode (l : List Char) : List Char :=
  (decodeFold none l).1 ++ flushRun (decodeFold none l).2

/-- Every character the two palettes can place in a grid row
(core.py 206-234, 327-333). -/
def glyphChars : List Char :=
  [' ', '.', ':', '#', '@', 'B', 'F', 'L', 'I', 'T',
   '░', '▒', '▓', '█', '▣', '▤', '▥', '▧', '▨']

/-- Glyph row r of the grid (core.py 324-333, 421-430). -/
def rowChars (g : Geom) (st : Raster) (blocks : Bool) (r : Int) : List Char :=
  (List.range g.cols.toNat).map
    (fun c : Nat => cellChar blocks (st.kinds (r, (c : Int))) (st.density (r, (c : Int))))

/-- Column ruler tens line (core.py 317-318). -/
def rulerTens (cols : Int) : String :=
  String.mk ((List.range cols.toNat).map
    (fun i : Nat => if i % 10 = 0 then digitChar (i / 10 % 10) else ' '))

/-- Column ruler ones line (core.py 319). -/
def rulerOnes (cols : Int) : String :=
  String.mk ((List.range cols.toNat).map (fun i : Nat => digitChar (i % 10)))

/-- Python format .0f applied to the exact rational vw / cols: printf rounds
to nearest, ties to even. -/
def fmtCellPx (vw cols : Int) : String := toString (pyRound vw cols)

/-- The quoted-label suffix (core.py 346, 484): a space and the quoted label
when the label is non-empty, nothing otherwise. -/
def labelStr (label : String) : String :=
  if label = ("") then ("") else (" \"") ++ label ++ ("\"")

/-- One dense interactive index line (core.py 347-350). -/
def denseEntryLine (p : Nat × IEntry) : String :=
  kindCode p.2.kind ++ toString p.1 ++ (":") ++ labelStr p.2.label ++ (" at grid(") ++
    toString p.2.gc ++ (",") ++ toString p.2.gr ++ (") px(") ++ toString p.2.px ++ (",") ++
    toString p.2.py ++ (")")

/-- One sparse interactive index line (core.py 485-487): pixel coordinates
only. -/
def sparseEntryLine (p : Nat × IEntry) : String :=
  kindCode p.2.kind ++ toString p.1 ++ (":") ++ labelStr p.2.label ++ (" (") ++
    toString p.2.px ++ (",") ++ toString p.2.py ++ (")")

/-- One emitted line of the sparse dedup loop (core.py 459-471) for a run of
count rows starting at row i, whose first row is row0 and whose shared
encoding is rle. -/
def formatRun (i count : Nat) (row0 : List Char) (rle : List Char) : String :=
  if row0.all (fun ch => ch == ' ') then
    if count = 1 then ("r") ++ toString i ++ (": (empty)")
    else ("r") ++ toString i ++ ("-") ++ toString (i + count - 1) ++ (": (empty)")
  else if count = 1 then ("r") ++ toString i ++ (": ") ++ String.mk rle
  else if count = 2 then
    ("r") ++ toString i ++ ("-") ++ toString (i + count - 1) ++ (": ") ++ String.mk rle
  else
    ("r") ++ toString i ++ ("-") ++ toString (i + count - 1) ++ (": ") ++ String.mk rle ++
      ("  (x") ++ toString count ++ (")")

/-- The row-dedup scan of render_sparse_map (core.py 449-472): walk the
(row, encoding) pairs keeping the current run, emitting one line per maximal
run of identical encodings. -/
def emitAux (i : Nat) (row0 : List Char) (rle : List Char) (count : Nat) :
    List (List Char × List Char) → List String
  | [] => [formatRun i count row0 rle]
  | pr :: rest =>
    if pr.2 = rle then emitAux i row0 rle (count + 1) rest
    else formatRun i count row0 rle :: emitAux (i + count) pr.1 pr.2 1 rest

def emitRows (charRows : List (List Char)) : List String :=
  match charRows.map (fun row => (row, rleRowChars row)) with
  | [] => []
  | pr :: rest => emitAux 0 pr.1 pr.2 1 rest

/-- Claim wording: maximal runs of byte-identical encoded rows, with start
index, length, first row and shared encoding. -/
def specRuns (i : Nat) : List (List Char × List Char) → List (Nat × Nat × List Char × List Char)
  | [] => []
  | pr :: rest =>
    (i, (rest.takeWhile (fun q => q.2 == pr.2)).length + 1, pr.1, pr.2) ::
      specRuns (i + ((rest.takeWhile (fun q => q.2 == pr.2)).length + 1))
        (rest.dropWhile (fun q => q.2 == pr.2))
termination_by l => l.length
decreasing_by
  simp only [List.length_cons]
  exact Nat.lt_succ_of_le (List.dropWhile_sublist _).length_le

/-- Claim wording (amended) for one emitted sparse line: k = 1 gives
r i: enc, k = 2 gives r i-(i+k-1): enc, k > 2 appends the suffix (x k); a
row made of the blank glyph prints (empty) under the same row ranges but
never takes the suffix. -/
def specLine (q : Nat × Nat × List Char × List Char) : String :=
  if q.2.2.1.all (fun ch => ch == ' ') then
    if q.2.1 = 1 then ("r") ++ toString q.1 ++ (": (empty)")
    else ("r") ++ toString q.1 ++ ("-") ++ toString (q.1 + q.2.1 - 1) ++ (": (empty)")
  else if q.2.1 = 1 then ("r") ++ toString q.1 ++ (": ") ++ String.mk q.2.2.2
  else if q.2.1 = 2 then
    ("r") ++ toString q.1 ++ ("-") ++ toString (q.1 + q.2.1 - 1) ++ (": ") ++
      String.mk q.2.2.2
  else
    ("r") ++ toString q.1 ++ ("-") ++ toString (q.1 + q.2.1 - 1) ++ (": ") ++
      String.mk q.2.2.2 ++ ("  (x") ++ toString q.2.1 ++ (")")

/-- render_density_map (core.py 237-352) as its list of output lines. -/
def renderDensityLines (data : WalkerData) (title url : String) (maxCols : Int)
    (blocks : Bool) : Option (List String) :=
  (gridGeom data.vw data.vh maxCols).bind fun g =>
  (processElements g data.elements).bind fun pr =>
  let pub := publishInteractive pr.2
  some (
    [("=== DOM Density Map ===")] ++
    (if title = ("") then [] else [("Page: ") ++ title]) ++
    (if url = ("") then [] else [("URL: ") ++ url]) ++
    [("Viewport: ") ++ toString data.vw ++ ("x") ++ toString data.vh ++ ("  Grid: ") ++
       toString g.cols ++ ("x") ++ toString g.rows ++ (" (") ++ fmtCellPx data.vw g.cols ++
       ("px/cell)"),
     ("Elements: ") ++ toString data.count ++ (" visible, ") ++ toString pub.length ++
       (" interactive"),
     ("")] ++
    (if blocks then
      [("Legend: (space)=empty ░=1 ▒=2-3 ▓=4-7 █=8+"),
       ("        ▣=button ▨=link ▤=input ▧=image/video ▥=text")]
     else
      [("Legend: (space)=empty .=1elem :=2-3 #=4-7 @=8+"),
       ("        B=button L=link F=input I=image/video T=text")]) ++
    [("")] ++
    [rulerTens g.cols, rulerOnes g.cols] ++
    (List.range g.rows.toNat).map (fun r : Nat => String.mk (rowChars g pr.1 blocks (r : Int))) ++
    (if pub = [] then []
     else [(""), ("--- Interactive (") ++ toString pub.length ++ (") ---")] ++
       (assignIds (fun _ => 0) pub).map denseEntryLine))

def renderDensityMap (data : WalkerData) (title url : String) (maxCols : Int)
    (blocks : Bool) : Option String :=
  (renderDensityLines data title url maxCols blocks).map
    (fun l => String.intercalate ("\n") l)

/-- render_sparse_map (core.py 373-489) as its list of output lines. -/
def renderSparseLines (data : WalkerData) (title url : String) (maxCols : Int)
    (blocks : Bool) : Option (List String) :=
  (gridGeom data.vw data.vh maxCols).bind fun g =>
  (processElements g data.elements).bind fun pr =>
  let pub := publishInteractive pr.2
  some (
    [("=== DOM Density Map (sparse) ===")] ++
    (if title = ("") then [] else [("Page: ") ++ title]) ++
    (if url = ("") then [] else [("URL: ") ++ url]) ++
    [("Viewport: ") ++ toString data.vw ++ ("x") ++ toString data.vh ++ ("  Grid: ") ++
       toString g.cols ++ ("x") ++ toString g.rows ++ (" (") ++ fmtCellPx data.vw g.cols ++
       ("px/cell)"),
     ("Elements: ") ++ toString data.count ++ (" visible, ") ++ toString pub.length ++
       (" interactive"),
     ("Key: _=empty .=1 :=2-3 #=4-7 @=8+ B=btn L=link F=input I=img T=text"),
     ("RLE: X5 = XXXXX"),
     ("")] ++
    emitRows ((List.range g.rows.toNat).map (fun r : Nat => rowChars g pr.1 blocks (r : Int))) ++
    (if pub = [] then []
     else [(""), ("--- Interactive (") ++ toString pub.length ++ (") ---")] ++
       (assignIds (fun _ => 0) pub).map sparseEntryLine))

def renderSparseMap (data : WalkerData) (title url : String) (maxCols : Int)
    (blocks : Bool) : Option String :=
  (renderSparseLines data title url maxCols blocks).map
    (fun l => String.intercalate ("\n") l)

/-- One entry of the elementsFromPoint stack (section 4.7): tag plus optional
attributes; Python truthiness makes an empty string count as absent. -/
structure PointEl where
  tag : String
  eid : Option String
  role : Option String
  dataE2e : Option String
  cls : Option String
  aria : Option String
  href : Option String
  text : Option String
  pressed : Option String
  editable : Bool
  disabled : Bool
  clickable : Bool
  bg : Option String
  color : Option String
  rx : Int
  ry : Int
  rw : Int
  rh : Int
deriving DecidableEq, Repr

/-- Python truthiness of an optional string attribute. -/
def truthy : Option String → Bool
  | none => false
  | some s => decide (s ≠ (""))

/-- Python str.join. -/
def strJoin (sep : String) : List String → String
  | [] => ("")
  | a :: rest => rest.foldl (fun acc s => acc ++ sep ++ s) a

/-- The header line of one block of render_elements_at (core.py 166-174). -/
def headerLine (i : Nat) (el : PointEl) : String :=
  strJoin (" ")
    ((("[") ++ toString i ++ ("] <") ++ el.tag ++ (">")) ::
     ((if truthy el.eid then [("id=\"") ++ el.eid.getD ("") ++ ("\"")] else []) ++
      (if truthy el.role then [("role=\"") ++ el.role.getD ("") ++ ("\"")] else []) ++
      (if truthy el.dataE2e then [("data-e2e=\"") ++ el.dataE2e.getD ("") ++ ("\"")] else [])))

/-- One block of render_elements_at (core.py 165-197): the header line, one
line per present attribute in the fixed order, then the rect line. -/
def entryBlock (i : Nat) (el : PointEl) : List String :=
  [headerLine i el] ++
  (if truthy el.cls then [("     class: ") ++ el.cls.getD ("")] else []) ++
  (if truthy el.aria then [("     aria-label: \"") ++ el.aria.getD ("") ++ ("\"")] else []) ++
  (if truthy el.href then [("     href: ") ++ el.href.getD ("")] else []) ++
  (if truthy el.text then [("     text: \"") ++ el.text.getD ("") ++ ("\"")] else []) ++
  (if truthy el.pressed then [("     aria-pressed: ") ++ el.pressed.getD ("")] else []) ++
  (if el.editable then [("     contentEditable: true")] else []) ++
  (if el.disabled then [("     disabled: true")] else []) ++
  (if el.clickable then [("     cursor: pointer")] else []) ++
  (if truthy el.bg then [("     bg: ") ++ el.bg.getD ("")] else []) ++
  (if truthy el.color then [("     color: ") ++ el.color.getD ("")] else []) ++
  [("     rect: (") ++ toString el.rx ++ (",") ++ toString el.ry ++ (") ") ++
     toString el.rw ++ ("x") ++ toString el.rh]

/-- render_elements_at (core.py 159-198) as its list of output lines: the
preamble, then the enumerate loop appending one block per stack entry. -/
def renderElementsAtLines (els : List PointEl) (px py : Int) : List String :=
  (els.foldl (fun acc el => (acc.1 ++ entryBlock acc.2 el, acc.2 + 1))
    (([("=== Elements at px(") ++ toString px ++ (",") ++ toString py ++ (") ==="),
       ("Stack depth: ") ++ toString els.length,
       ("")], 0) : List String × Nat)).1

def renderElementsAt (els : List PointEl) (px py : Int) : String :=
  String.intercalate ("\n") (renderElementsAtLines els px py)

/-- A block header line: begins with the opening bracket of the index. -/
def isHeaderLine (l : String) : Bool :=
  match l.data with
  | [] => false
  | c :: _ => c == '['

/-- Claim wording for the covered cell range: floor divisions of the exact
rationals, clamped into grid bounds. -/
def cellSpanFloor (g : Geom) (el : Element) : Span :=
  { c0 := max 0 (min (Int.fdiv (el.x * g.cols) g.vw) (g.cols - 1))
    c1 := max 0 (min (Int.fdiv ((el.x + el.w - 1) * g.cols) g.vw) (g.cols - 1))
    r0 := max 0 (min (Int.fdiv (el.y * g.cols) g.vw) (g.rows - 1))
    r1 := max 0 (min (Int.fdiv ((el.y + el.h - 1) * g.cols) g.vw) (g.rows - 1)) }

-- ------------------------------------------------------------------
-- Theorems
-- ------------------------------------------------------------------
theorem gridGeom_eq_some (vw vh maxCols : Int)
    (hc : min maxCols vw ≠ 0) (hvw : vw ≠ 0) :
    gridGeom vw vh maxCols = some
      { vw := vw
        cols := min maxCols vw
        rows :=
          if 16000 < min maxCols vw * max 1 (pyRound (vh * min maxCols vw) vw) then
            Int.fdiv 16000 (min maxCols vw)
          else max 1 (pyRound (vh * min maxCols vw) vw) } := by
  unfold gridGeom
  simp [hc, hvw]

/-- C1: for every viewport with integer width > 0 and every positive column
budget, the derived grid satisfies cols = min(max_cols, width),
rows = max(1, round(height / cell_px)) recomputed as 16000 // cols whenever
cols * rows exceeds 16000, and consequently cols * rows ≤ 16000. -/
theorem grid_geometry_cap (vw vh maxCols : Int)
    (hvw : 0 < vw) (hmc : 0 < maxCols) :
    ∃ g : Geom, gridGeom vw vh maxCols = some g ∧
      g.cols = min maxCols vw ∧
      g.rows = (if 16000 < g.cols * max 1 (pyRound (vh * g.cols) vw) then
          Int.fdiv 16000 g.cols
        else max 1 (pyRound (vh * g.cols) vw)) ∧
      g.cols * g.rows ≤ 16000 := by
  have hc : 0 < min maxCols vw := lt_min hmc hvw
  refine ⟨_, gridGeom_eq_some vw vh maxCols (by omega) (by omega), rfl, rfl, ?_⟩
  set cols := min maxCols vw with hcols
  set rows0 := max 1 (pyRound (vh * cols) vw) with hrows0
  show cols * (if 16000 < cols * rows0 then Int.fdiv 16000 cols else rows0) ≤ 16000
  by_cases hcap : 16000 < cols * rows0
  · rw [if_pos hcap]
    have hfd : Int.fdiv 16000 cols = 16000 / cols := Int.fdiv_eq_ediv _ (by omega)
    rw [hfd, mul_comm]
    exact Int.ediv_mul_le (16000 : Int) (by omega)
  · rw [if_neg hcap]
    omega

theorem grid_geometry_cap_witness :
    ∃ g : Geom, gridGeom 1920 1080 160 = some g ∧
      g.cols = min 160 1920 ∧
      g.rows = (if 16000 < g.cols * max 1 (pyRound (1080 * g.cols) 1920) then
          Int.fdiv 16000 g.cols
        else max 1 (pyRound (1080 * g.cols) 1920)) ∧
      g.cols * g.rows ≤ 16000 :=
  grid_geometry_cap 1920 1080 160 (by decide) (by decide)

theorem mem_intRange {lo hi x : Int} : x ∈ intRange lo hi ↔ lo ≤ x ∧ x ≤ hi := by
  unfold intRange
  rw [List.mem_map]
  constructor
  · rintro ⟨k, hk, rfl⟩
    rw [List.mem_range] at hk
    omega
  · intro h
    refine ⟨(x - lo).toNat, ?_, by omega⟩
    rw [List.mem_range]
    omega

theorem nodup_intRange (lo hi : Int) : (intRange lo hi).Nodup := by
  unfold intRange
  refine List.Nodup.map ?_ (List.nodup_range _)
  intro a b hab
  dsimp only at hab
  omega

theorem foldCols_some (g : Geom) (kind : Option Kind) (r : Int) (C : List Int)
    (hC : ∀ c ∈ C, 0 ≤ c ∧ c < g.cols) (hr : 0 ≤ r ∧ r < g.rows) (hnd : C.Nodup) :
    ∀ st : Raster, ∃ st' : Raster,
      C.foldlM (fun st c => paintCell g kind st r c) st = some st' ∧
      ∀ p : Int × Int,
        (st'.density p = st.density p + (if p.1 = r ∧ p.2 ∈ C then 1 else 0)) ∧
        st'.kinds p = if p.1 = r ∧ p.2 ∈ C then combineKind (st.kinds p) kind else st.kinds p := by
  induction C with
  | nil =>
    intro st
    exact ⟨st, rfl, by simp⟩
  | cons c0 cs ih =>
    intro st
    have hc0 := hC c0 (List.mem_cons_self _ _)
    have hnd' := List.nodup_cons.mp hnd
    set st1 : Raster :=
      { density := fun p => if p = (r, c0) then st.density p + 1 else st.density p
        kinds := fun p => if p = (r, c0) then combineKind (st.kinds p) kind else st.kinds p }
      with hst1
    have hpc : paintCell g kind st r c0 = some st1 := by
      unfold paintCell
      rw [if_pos ⟨hr.1, hr.2, hc0.1, hc0.2⟩]
    obtain ⟨st', hfold, hchar⟩ :=
      ih (fun c hc => hC c (List.mem_cons_of_mem _ hc)) hnd'.2 st1
    refine ⟨st', ?_, ?_⟩
    · rw [List.foldlM_cons, hpc]
      exact hfold
    · intro p
      obtain ⟨hd, hk⟩ := hchar p
      have hd1 : st1.density p = if p = (r, c0) then st.density p + 1 else st.density p := rfl
      have hk1 : st1.kinds p = if p = (r, c0) then combineKind (st.kinds p) kind else st.kinds p := rfl
      by_cases hA : p = (r, c0)
      · have hB : ¬(p.1 = r ∧ p.2 ∈ cs) := by
          rintro ⟨-, hmem⟩
          rw [hA] at hmem
          exact hnd'.1 hmem
        have hcond : p.1 = r ∧ p.2 ∈ c0 :: cs := by
          rw [hA]
          exact ⟨rfl, List.mem_cons_self _ _⟩
        constructor
        · rw [hd, hd1, if_pos hA, if_neg hB, if_pos hcond]
        · rw [hk, hk1, if_neg hB, if_pos hA, if_pos hcond]
      · by_cases hB : p.1 = r ∧ p.2 ∈ cs
        · have hcond : p.1 = r ∧ p.2 ∈ c0 :: cs := ⟨hB.1, List.mem_cons_of_mem _ hB.2⟩
          constructor
          · rw [hd, hd1, if_neg hA, if_pos hB, if_pos hcond]
          · rw [hk, hk1, if_pos hB, if_neg hA, if_pos hcond]
        · have hcond : ¬(p.1 = r ∧ p.2 ∈ c0 :: cs) := by
            rintro ⟨h1, h2⟩
            rcases List.mem_cons.mp h2 with h3 | h3
            · exact hA (Prod.ext h1 h3)
            · exact hB ⟨h1, h3⟩
          constructor
          · rw [hd, hd1, if_neg hA, if_neg hB, if_neg hcond]
          · rw [hk, hk1, if_neg hB, if_neg hA, if_neg hcond]

theorem foldRows_some (g : Geom) (kind : Option Kind) (R C : List Int)
    (hR : ∀ r ∈ R, 0 ≤ r ∧ r < g.rows) (hC : ∀ c ∈ C, 0 ≤ c ∧ c < g.cols)
    (hndR : R.Nodup) (hndC : C.Nodup) :
    ∀ st : Raster, ∃ st' : Raster,
      R.foldlM (fun st r => C.foldlM (fun st c => paintCell g kind st r c) st) st = some st' ∧
      ∀ p : Int × Int,
        (st'.density p = st.density p + (if p.1 ∈ R ∧ p.2 ∈ C then 1 else 0)) ∧
        st'.kinds p = if p.1 ∈ R ∧ p.2 ∈ C then combineKind (st.kinds p) kind else st.kinds p := by
  induction R with
  | nil =>
    intro st
    exact ⟨st, rfl, by simp⟩
  | cons r0 rs ih =>
    intro st
    have hr0 := hR r0 (List.mem_cons_self _ _)
    have hndR' := List.nodup_cons.mp hndR
    obtain ⟨st1, hf1, hchar1⟩ := foldCols_some g kind r0 C hC hr0 hndC st
    obtain ⟨st', hfold, hchar⟩ := ih (fun r h => hR r (List.mem_cons_of_mem _ h)) hndR'.2 st1
    refine ⟨st', ?_, ?_⟩
    · rw [List.foldlM_cons, hf1]
      exact hfold
    · intro p
      obtain ⟨hd, hk⟩ := hchar p
      obtain ⟨hd1, hk1⟩ := hchar1 p
      by_cases hA : p.1 = r0 ∧ p.2 ∈ C
      · have hB : ¬(p.1 ∈ rs ∧ p.2 ∈ C) := by
          rintro ⟨hmem, -⟩
          rw [hA.1] at hmem
          exact hndR'.1 hmem
        have hcond : p.1 ∈ r0 :: rs ∧ p.2 ∈ C := by
          refine ⟨?_, hA.2⟩
          rw [hA.1]
          exact List.mem_cons_self _ _
        constructor
        · rw [hd, hd1, if_pos hA, if_neg hB, if_pos hcond]
        · rw [hk, hk1, if_neg hB, if_pos hA, if_pos hcond]
      · by_cases hB : p.1 ∈ rs ∧ p.2 ∈ C
        · have hcond : p.1 ∈ r0 :: rs ∧ p.2 ∈ C := ⟨List.mem_cons_of_mem _ hB.1, hB.2⟩
          constructor
          · rw [hd, hd1, if_neg hA, if_pos hB, if_pos hcond]
          · rw [hk, hk1, if_pos hB, if_neg hA, if_pos hcond]
        · have hcond : ¬(p.1 ∈ r0 :: rs ∧ p.2 ∈ C) := by
            rintro ⟨h1, h2⟩
            rcases List.mem_cons.mp h1 with h3 | h3
            · exact hA ⟨h3, h2⟩
            · exact hB ⟨h3, h2⟩
          constructor
          · rw [hd, hd1, if_neg hA, if_neg hB, if_neg hcond]
          · rw [hk, hk1, if_neg hB, if_neg hA, if_neg hcond]

theorem coversCell_iff (g : Geom) (el : Element) (p : Int × Int) :
    (p.1 ∈ intRange (cellSpan g el).r0 (cellSpan g el).r1 ∧
      p.2 ∈ intRange (cellSpan g el).c0 (cellSpan g el).c1) ↔
    coversCell g el p.1 p.2 = true := by
  rw [mem_intRange, mem_intRange, coversCell, decide_eq_true_iff]
  tauto

theorem paintElem_some (g : Geom) (el : Element) (hc : 0 < g.cols) (hr : 0 < g.rows) :
    ∀ st : Raster, ∃ st' : Raster, paintElem g st el = some st' ∧
      ∀ p : Int × Int,
        (st'.density p = st.density p + (if coversCell g el p.1 p.2 then 1 else 0)) ∧
        st'.kinds p =
          if coversCell g el p.1 p.2 then combineKind (st.kinds p) el.kind else st.kinds p := by
  intro st
  have hRb : ∀ r ∈ intRange (cellSpan g el).r0 (cellSpan g el).r1, 0 ≤ r ∧ r < g.rows := by
    intro r hrm
    rw [mem_intRange] at hrm
    simp only [cellSpan] at hrm
    omega
  have hCb : ∀ c ∈ intRange (cellSpan g el).c0 (cellSpan g el).c1, 0 ≤ c ∧ c < g.cols := by
    intro c hcm
    rw [mem_intRange] at hcm
    simp only [cellSpan] at hcm
    omega
  obtain ⟨st', hfold, hchar⟩ :=
    foldRows_some g el.kind (intRange (cellSpan g el).r0 (cellSpan g el).r1)
      (intRange (cellSpan g el).c0 (cellSpan g el).c1)
      hRb hCb (nodup_intRange _ _) (nodup_intRange _ _) st
  refine ⟨st', ?_, ?_⟩
  · unfold paintElem
    exact hfold
  · intro p
    obtain ⟨hd, hk⟩ := hchar p
    constructor
    · rw [hd, if_congr (coversCell_iff g el p) rfl rfl]
    · rw [hk, if_congr (coversCell_iff g el p) rfl rfl]

theorem combineKind_none_iff (cur kind : Option Kind) :
    combineKind cur kind = none ↔ cur = none ∧ kind = none := by
  cases kind with
  | none => simp [combineKind]
  | some k =>
    cases cur with
    | none => simp [combineKind]
    | some c =>
      simp only [combineKind]
      split <;> simp

theorem combineKind_some_cases (cur kind : Option Kind) (k : Kind)
    (h : combineKind cur kind = some k) : cur = some k ∨ kind = some k := by
  cases kind with
  | none => exact Or.inl h
  | some ke =>
    cases cur with
    | none =>
      right
      simpa [combineKind] using h
    | some c =>
      simp only [combineKind] at h
      split at h
      · right
        exact h
      · left
        exact h

theorem combineKind_mono (cur kind : Option Kind) (k0 : Kind) (h : cur = some k0) :
    ∃ k1 : Kind, combineKind cur kind = some k1 ∧ priority k0 ≤ priority k1 := by
  subst h
  cases kind with
  | none => exact ⟨k0, rfl, le_refl _⟩
  | some ke =>
    simp only [combineKind]
    by_cases hp : priority k0 < priority ke
    · exact ⟨ke, by rw [if_pos hp], le_of_lt hp⟩
    · exact ⟨k0, by rw [if_neg hp], le_refl _⟩

theorem combineKind_kind_le (cur : Option Kind) (ke k1 : Kind)
    (h : combineKind cur (some ke) = some k1) : priority ke ≤ priority k1 := by
  cases cur with
  | none =>
    simp only [combineKind] at h
    cases h
    exact le_refl _
  | some c =>
    simp only [combineKind] at h
    split at h
    · cases h
      exact le_refl _
    · cases h
      omega

theorem kindFold_ok (g : Geom) (r c : Int) :
    ∀ (els : List Element) (init : Option Kind),
      (kindFold g r c els init = none →
        init = none ∧ ∀ el ∈ els, coversCell g el r c = true → el.kind = none) ∧
      (∀ k : Kind, kindFold g r c els init = some k →
        ((init = some k ∨ ∃ el ∈ els, coversCell g el r c = true ∧ el.kind = some k) ∧
         (∀ k0 : Kind, init = some k0 → priority k0 ≤ priority k) ∧
         (∀ el ∈ els, coversCell g el r c = true →
           ∀ k2 : Kind, el.kind = some k2 → priority k2 ≤ priority k))) := by
  intro els
  induction els with
  | nil =>
    intro init
    constructor
    · intro h
      exact ⟨h, by simp⟩
    · intro k h
      refine ⟨Or.inl h, ?_, by simp⟩
      intro k0 h0
      rw [h0] at h
      cases h
      exact le_refl _
  | cons el els ih =>
    intro init
    have hstep : kindFold g r c (el :: els) init =
        kindFold g r c els (if coversCell g el r c then combineKind init el.kind else init) := rfl
    constructor
    · intro h
      rw [hstep] at h
      obtain ⟨hinit', hels⟩ := (ih _).1 h
      by_cases hcov : coversCell g el r c = true
      · rw [if_pos hcov] at hinit'
        obtain ⟨hi, hk⟩ := (combineKind_none_iff _ _).mp hinit'
        refine ⟨hi, ?_⟩
        intro el0 hmem hc0
        rcases List.mem_cons.mp hmem with rfl | hmem'
        · exact hk
        · exact hels el0 hmem' hc0
      · rw [if_neg hcov] at hinit'
        refine ⟨hinit', ?_⟩
        intro el0 hmem hc0
        rcases List.mem_cons.mp hmem with rfl | hmem'
        · exact absurd hc0 hcov
        · exact hels el0 hmem' hc0
    · intro k h
      rw [hstep] at h
      obtain ⟨hor, hinitb, helsb⟩ := (ih _).2 k h
      by_cases hcov : coversCell g el r c = true
      · rw [if_pos hcov] at hor hinitb
        refine ⟨?_, ?_, ?_⟩
        · rcases hor with hck | ⟨el0, hmem, hc0, hk0⟩
          · rcases combineKind_some_cases init el.kind k hck with hi | hk
            · exact Or.inl hi
            · exact Or.inr ⟨el, List.mem_cons_self _ _, hcov, hk⟩
          · exact Or.inr ⟨el0, List.mem_cons_of_mem _ hmem, hc0, hk0⟩
        · intro k0 h0
          obtain ⟨k1, hk1, hle⟩ := combineKind_mono init el.kind k0 h0
          exact le_trans hle (hinitb k1 hk1)
        · intro el0 hmem hc0 k2 hk2
          rcases List.mem_cons.mp hmem with rfl | hmem'
          · rw [hk2] at hinitb
            cases hcomb : combineKind init (some k2) with
            | none => exact absurd ((combineKind_none_iff _ _).mp hcomb).2 (by simp)
            | some k1 =>
              exact le_trans (combineKind_kind_le init k2 k1 hcomb) (hinitb k1 hcomb)
          · exact helsb el0 hmem' hc0 k2 hk2
      · rw [if_neg hcov] at hor hinitb
        refine ⟨?_, hinitb, ?_⟩
        · rcases hor with hi | ⟨el0, hmem, hc0, hk0⟩
          · exact Or.inl hi
          · exact Or.inr ⟨el0, List.mem_cons_of_mem _ hmem, hc0, hk0⟩
        · intro el0 hmem hc0 k2 hk2
          rcases List.mem_cons.mp hmem with rfl | hmem'
          · exact absurd hc0 hcov
          · exact helsb el0 hmem' hc0 k2 hk2

theorem processElements_char (g : Geom) (hc : 0 < g.cols) (hr : 0 < g.rows) :
    ∀ (els : List Element) (st0 : Raster) (acc : List IEntry),
      ∃ (st' : Raster) (inter : List IEntry),
        els.foldlM
          (fun acc el =>
            (paintElem g acc.1 el).bind fun st =>
              some (st, if el.interactive then acc.2 ++ [mkEntry g el] else acc.2))
          (st0, acc) = some (st', inter) ∧
        inter = acc ++ (els.filter (fun el => el.interactive)).map (mkEntry g) ∧
        ∀ p : Int × Int,
          st'.density p = st0.density p + countCovering g els p.1 p.2 ∧
          st'.kinds p = kindFold g p.1 p.2 els (st0.kinds p) := by
  intro els
  induction els with
  | nil =>
    intro st0 acc
    exact ⟨st0, acc, rfl, by simp, by simp [countCovering, kindFold]⟩
  | cons el els ih =>
    intro st0 acc
    obtain ⟨st1, hpaint, hchar1⟩ := paintElem_some g el hc hr st0
    obtain ⟨st', inter, hfold, hinter, hchar⟩ :=
      ih st1 (if el.interactive then acc ++ [mkEntry g el] else acc)
    refine ⟨st', inter, ?_, ?_, ?_⟩
    · rw [List.foldlM_cons]
      dsimp only
      rw [hpaint]
      exact hfold
    · rw [hinter]
      by_cases hi : el.interactive
      · simp [List.filter_cons, hi]
      · simp [List.filter_cons, hi]
    · intro p
      obtain ⟨hd, hk⟩ := hchar p
      obtain ⟨hd1, hk1⟩ := hchar1 p
      constructor
      · rw [hd, hd1]
        simp only [countCovering, List.countP_cons]
        by_cases hcov : coversCell g el p.1 p.2 = true
        · simp only [hcov, if_pos]
          omega
        · simp only [hcov]
          simp
      · rw [hk, hk1]
        rfl

theorem processElements_some (g : Geom) (els : List Element)
    (hc : 0 < g.cols) (hr : 0 < g.rows) :
    ∃ (st : Raster) (inter : List IEntry), processElements g els = some (st, inter) ∧
      inter = (els.filter (fun el => el.interactive)).map (mkEntry g) ∧
      ∀ p : Int × Int,
        st.density p = countCovering g els p.1 p.2 ∧
        st.kinds p = kindFold g p.1 p.2 els none := by
  obtain ⟨st, inter, hfold, hinter, hchar⟩ := processElements_char g hc hr els initRaster []
  refine ⟨st, inter, hfold, by simpa using hinter, ?_⟩
  intro p
  obtain ⟨hd, hk⟩ := hchar p
  constructor
  · simpa [initRaster] using hd
  · simpa [initRaster] using hk

theorem clamp_tdiv_eq_clamp_fdiv (a b u : Int) (hb : 0 < b) (hu : 0 ≤ u) :
    max 0 (min (Int.tdiv a b) u) = max 0 (min (Int.fdiv a b) u) := by
  by_cases ha : 0 ≤ a
  · rw [Int.tdiv_eq_ediv ha (le_of_lt hb), Int.fdiv_eq_ediv _ (le_of_lt hb)]
  · rw [Int.fdiv_eq_ediv _ (le_of_lt hb)]
    have h1 : Int.tdiv a b ≤ 0 := by
      have h := Int.tdiv_nonneg (a := -a) (b := b) (by omega) (by omega)
      rw [Int.neg_tdiv] at h
      omega
    have h2 : a / b < 1 := by
      rw [Int.ediv_lt_iff_lt_mul hb]
      omega
    omega

theorem cellSpan_eq_cellSpanFloor (g : Geom) (el : Element)
    (hvw : 0 < g.vw) (hc : 0 < g.cols) (hr : 0 < g.rows) :
    cellSpan g el = cellSpanFloor g el := by
  unfold cellSpan cellSpanFloor
  rw [clamp_tdiv_eq_clamp_fdiv _ _ _ hvw (by omega),
    clamp_tdiv_eq_clamp_fdiv _ _ _ hvw (by omega),
    clamp_tdiv_eq_clamp_fdiv _ _ _ hvw (by omega),
    clamp_tdiv_eq_clamp_fdiv _ _ _ hvw (by omega)]

/-- C2: after rasterizing any element list on a grid with at least one row and
one column, every cell's density equals the number of elements whose clamped
covered cell range contains that cell, and the cell's dominant kind is an
attained kind of maximal priority among the kind-carrying covering elements
(none when there are none); kind-less elements increment density but never
set the dominant kind. -/
theorem raster_density_dominant (g : Geom) (els : List Element)
    (hvw : 0 < g.vw) (hc : 0 < g.cols) (hr : 0 < g.rows) :
    ∃ (st : Raster) (inter : List IEntry), processElements g els = some (st, inter) ∧
      (∀ el ∈ els, cellSpan g el = cellSpanFloor g el) ∧
      ∀ r c : Int, st.density (r, c) = countCovering g els r c ∧
        DominantOk g els r c (st.kinds (r, c)) := by
  obtain ⟨st, inter, hfold, -, hchar⟩ := processElements_some g els hc hr
  refine ⟨st, inter, hfold, fun el _ => cellSpan_eq_cellSpanFloor g el hvw hc hr, ?_⟩
  intro r c
  obtain ⟨hd, hk⟩ := hchar (r, c)
  refine ⟨hd, ?_⟩
  rw [hk]
  cases hkf : kindFold g r c els none with
  | none =>
    obtain ⟨-, hall⟩ := (kindFold_ok g r c els none).1 hkf
    exact hall
  | some k =>
    obtain ⟨hor, -, hbound⟩ := (kindFold_ok g r c els none).2 k hkf
    rcases hor with hnone | hatt
    · cases hnone
    · exact ⟨hatt, hbound⟩

theorem raster_density_dominant_witness :
    ∃ (st : Raster) (inter : List IEntry),
      processElements { vw := 4, cols := 2, rows := 2 }
        [{ x := 0, y := 0, w := 2, h := 2, kind := some Kind.B, interactive := true,
           label := ("Go") }] = some (st, inter) ∧
      (∀ el ∈ [{ x := 0, y := 0, w := 2, h := 2, kind := some Kind.B, interactive := true,
                 label := ("Go") }],
        cellSpan { vw := 4, cols := 2, rows := 2 } el =
          cellSpanFloor { vw := 4, cols := 2, rows := 2 } el) ∧
      ∀ r c : Int,
        st.density (r, c) = countCovering { vw := 4, cols := 2, rows := 2 }
          [{ x := 0, y := 0, w := 2, h := 2, kind := some Kind.B, interactive := true,
             label := ("Go") }] r c ∧
        DominantOk { vw := 4, cols := 2, rows := 2 }
          [{ x := 0, y := 0, w := 2, h := 2, kind := some Kind.B, interactive := true,
             label := ("Go") }] r c (st.kinds (r, c)) :=
  raster_density_dominant { vw := 4, cols := 2, rows := 2 }
    [{ x := 0, y := 0, w := 2, h := 2, kind := some Kind.B, interactive := true,
       label := ("Go") }] (by decide) (by decide) (by decide)


/-- C6: a present dominant kind overrides density entirely and maps to the
fixed per-kind glyph of the active palette; an absent kind maps density
through the exact thresholds 0 blank, 1 light, 2-3 medium, 4-7 heavy, 8+
solid, structured identically in both palettes. -/
theorem glyph_thresholds (b : Bool) (kk : Kind) (d : Nat) :
    cellChar b (some kk) d = (if b then blockType kk else kindLetter kk) ∧
    cellChar b none d =
      (if d = 0 then ' '
       else if d = 1 then (if b then '░' else '.')
       else if 2 ≤ d ∧ d ≤ 3 then (if b then '▒' else ':')
       else if 4 ≤ d ∧ d ≤ 7 then (if b then '▓' else '#')
       else if b then '█' else '@') := by
  constructor
  · rfl
  · show densityChar d b = _
    unfold densityChar
    cases b <;> split_ifs <;> first | rfl | omega

/-- C7 (code bug): render_density_map contains no viewport-width validation.
With width -1 and an empty element list the call runs to completion and
returns a map string; nothing resembling an InvalidViewport failure occurs
before the divisions. -/
theorem render_succeeds_on_negative_width :
    (renderDensityMap { vw := -1, vh := 10, count := 0, elements := [] } ("") ("") 160
      false).isSome = true := by
  rfl

theorem gridGeom_pos (vw vh maxCols : Int) (g : Geom)
    (hg : gridGeom vw vh maxCols = some g) (hvw : 0 < vw) (hmc : 0 < maxCols)
    (hcap : maxCols ≤ 16000) :
    g.vw = vw ∧ g.cols = min maxCols vw ∧ 0 < g.cols ∧ 0 < g.rows := by
  have hc : 0 < min maxCols vw := lt_min hmc hvw
  have heq := gridGeom_eq_some vw vh maxCols (by omega) (by omega)
  rw [hg] at heq
  have hgeq := Option.some.inj heq
  subst hgeq
  refine ⟨rfl, rfl, hc, ?_⟩
  show 0 < (if 16000 < min maxCols vw * max 1 (pyRound (vh * min maxCols vw) vw) then
      Int.fdiv 16000 (min maxCols vw)
    else max 1 (pyRound (vh * min maxCols vw) vw))
  by_cases hb : 16000 < min maxCols vw * max 1 (pyRound (vh * min maxCols vw) vw)
  · rw [if_pos hb, Int.fdiv_eq_ediv _ (by omega)]
    have hcols_le : min maxCols vw ≤ 16000 := le_trans (min_le_left _ _) hcap
    have h1 : (1 : Int) ≤ 16000 / min maxCols vw := by
      rw [Int.le_ediv_iff_mul_le hc]
      omega
    omega
  · rw [if_neg hb]
    omega

/-- C10: for every walker record with integer width > 0 and any integer
height, count and element list, and every column budget with
0 < max_cols ≤ 16000, both render_density_map and render_sparse_map
terminate and return a string: the geometry divisions succeed, every grid
write stays in bounds and every glyph lookup succeeds. -/
theorem render_total_no_exception (data : WalkerData) (title url : String)
    (maxCols : Int) (blocks : Bool)
    (hvw : 0 < data.vw) (hmc : 0 < maxCols) (hcap : maxCols ≤ 16000) :
    (renderDensityMap data title url maxCols blocks).isSome = true ∧
    (renderSparseMap data title url maxCols blocks).isSome = true := by
  obtain ⟨g, hg⟩ : ∃ g, gridGeom data.vw data.vh maxCols = some g :=
    ⟨_, gridGeom_eq_some data.vw data.vh maxCols
      (by have := lt_min hmc hvw; omega) (by omega)⟩
  obtain ⟨-, -, hcols, hrows⟩ := gridGeom_pos data.vw data.vh maxCols g hg hvw hmc hcap
  obtain ⟨st, inter, hproc, -, -⟩ := processElements_some g data.elements hcols hrows
  constructor
  · simp [renderDensityMap, renderDensityLines, hg, hproc]
  · simp [renderSparseMap, renderSparseLines, hg, hproc]

theorem render_total_no_exception_witness :
    (renderDensityMap
      { vw := 1920, vh := 1080, count := 1,
        elements := [{ x := 0, y := 0, w := 24, h := 24, kind := some Kind.B,
                       interactive := true, label := ("Go") }] }
      ("") ("") 160 false).isSome = true ∧
    (renderSparseMap
      { vw := 1920, vh := 1080, count := 1,
        elements := [{ x := 0, y := 0, w := 24, h := 24, kind := some Kind.B,
                       interactive := true, label := ("Go") }] }
      ("") ("") 160 false).isSome = true :=
  render_total_no_exception
    { vw := 1920, vh := 1080, count := 1,
      elements := [{ x := 0, y := 0, w := 24, h := 24, kind := some Kind.B,
                     interactive := true, label := ("Go") }] }
    ("") ("") 160 false (by decide) (by decide) (by decide)

theorem assignIds_filter (key : Option Kind) :
    ∀ (l : List IEntry) (ctr : Option Kind → Nat),
      ((assignIds ctr l).filter (fun p => p.2.kind == key)).map (fun p => p.1) =
        List.range' (ctr key + 1) (l.countP (fun e => e.kind == key)) := by
  intro l
  induction l with
  | nil =>
    intro ctr
    simp [assignIds]
  | cons e rest ih =>
    intro ctr
    rw [assignIds, List.filter_cons, List.countP_cons]
    by_cases hk : e.kind = key
    · have hb : ((ctr e.kind + 1, e).2.kind == key) = true := by
        simp [hk]
      rw [if_pos hb]
      have hb2 : (e.kind == key) = true := by
        simp [hk]
      rw [hb2]
      rw [List.map_cons, ih]
      have hupd : Function.update ctr e.kind (ctr e.kind + 1) key = ctr key + 1 := by
        rw [hk, Function.update_same]
      rw [hupd, hk]
      simp [List.range'_succ]
    · have hb : ¬(((ctr e.kind + 1, e).2.kind == key) = true) := by
        simp [hk]
      rw [if_neg hb]
      have hb2 : (e.kind == key) = false := by
        simp [hk]
      rw [hb2]
      rw [ih]
      have hupd : Function.update ctr e.kind (ctr e.kind + 1) key = ctr key := by
        rw [Function.update_noteq (fun h => hk h.symm)]
      rw [hupd]
      simp

/-- C3: the published interactive index is the collected interactive entries
(one per element with interactive = true, in input order) sorted by
(grid_row, grid_col) non-decreasing, truncated to the first 50 entries after
sorting; iterating the sorted truncated list, the sequence identifiers of
each kind (kind-less entries sharing the single unknown bucket) are the
consecutive integers 1, 2, ... in sorted order. -/
theorem interactive_index_sorted_ids (g : Geom) (els : List Element)
    (hc : 0 < g.cols) (hr : 0 < g.rows) :
    ∃ (st : Raster) (inter : List IEntry), processElements g els = some (st, inter) ∧
      inter = (els.filter (fun el => el.interactive)).map (mkEntry g) ∧
      List.Sorted entryLe (publishInteractive inter) ∧
      (publishInteractive inter).length ≤ 50 ∧
      ∀ key : Option Kind,
        ((assignIds (fun _ => 0) (publishInteractive inter)).filter
            (fun p => p.2.kind == key)).map (fun p => p.1) =
          List.range' 1 ((publishInteractive inter).countP (fun e => e.kind == key)) := by
  obtain ⟨st, inter, hproc, hint, -⟩ := processElements_some g els hc hr
  refine ⟨st, inter, hproc, hint, ?_, ?_, ?_⟩
  · exact List.Pairwise.sublist (List.take_sublist _ _)
      (List.sorted_insertionSort entryLe inter)
  · exact List.length_take_le _ _
  · intro key
    exact assignIds_filter key (publishInteractive inter) (fun _ => 0)

theorem interactive_index_sorted_ids_witness :
    ∃ (st : Raster) (inter : List IEntry),
      processElements { vw := 1920, cols := 160, rows := 90 }
        [{ x := 0, y := 0, w := 24, h := 24, kind := some Kind.B, interactive := true,
           label := ("Go") },
         { x := 0, y := 200, w := 24, h := 24, kind := some Kind.L, interactive := true,
           label := ("") }] = some (st, inter) ∧
      inter = (List.filter (fun el => el.interactive)
          [{ x := 0, y := 0, w := 24, h := 24, kind := some Kind.B, interactive := true,
             label := ("Go") },
           { x := 0, y := 200, w := 24, h := 24, kind := some Kind.L, interactive := true,
             label := ("") }]).map (mkEntry { vw := 1920, cols := 160, rows := 90 }) ∧
      List.Sorted entryLe (publishInteractive inter) ∧
      (publishInteractive inter).length ≤ 50 ∧
      ∀ key : Option Kind,
        ((assignIds (fun _ => 0) (publishInteractive inter)).filter
            (fun p => p.2.kind == key)).map (fun p => p.1) =
          List.range' 1 ((publishInteractive inter).countP (fun e => e.kind == key)) :=
  interactive_index_sorted_ids { vw := 1920, cols := 160, rows := 90 }
    [{ x := 0, y := 0, w := 24, h := 24, kind := some Kind.B, interactive := true,
       label := ("Go") },
     { x := 0, y := 200, w := 24, h := 24, kind := some Kind.L, interactive := true,
       label := ("") }] (by decide) (by decide)

/-- C8 counterexample: with viewport 4x5 and max_cols = 2 the derived grid is
2x2, and the interactive element (0,4,1,1), which lies inside the viewport,
is published with grid row 2, outside [0, rows-1] = [0, 1]: the published
grid center is not clamped to grid bounds. -/
theorem interactive_center_unclamped_counterexample :
    gridGeom 4 5 2 = some { vw := 4, cols := 2, rows := 2 } ∧
    (processElements { vw := 4, cols := 2, rows := 2 }
        [{ x := 0, y := 4, w := 1, h := 1, kind := none, interactive := true,
           label := ("") }]).map (fun pr => pr.2.map (fun e => e.gr)) = some [2] ∧
    ¬((2 : Int) ≤ 2 - 1) :=
  ⟨by decide, by decide, by decide⟩

theorem tdiv_center_bounds (x w vw cols : Int)
    (hvw : 0 < vw) (hcols : 0 < cols)
    (hx : 0 ≤ x) (hw : 1 ≤ w) (hxw : x + w ≤ vw) :
    0 ≤ Int.tdiv ((2 * x + w) * cols) (2 * vw) ∧
    Int.tdiv ((2 * x + w) * cols) (2 * vw) < cols := by
  have hnum : 0 ≤ (2 * x + w) * cols := mul_nonneg (by omega) (by omega)
  have hden : (0 : Int) < 2 * vw := by omega
  constructor
  · exact Int.tdiv_nonneg hnum (by omega)
  · rw [Int.tdiv_eq_ediv hnum (by omega), Int.ediv_lt_iff_lt_mul hden]
    calc (2 * x + w) * cols < 2 * vw * cols :=
          mul_lt_mul_of_pos_right (by omega) hcols
      _ = cols * (2 * vw) := by ring

/-- C8 amended: the published grid center is computed without clamping; for
every interactive element lying horizontally within the viewport the grid
column nevertheless lies in [0, cols-1], and the grid row is nonnegative for
y, h ≥ 0, but the grid row may exceed rows - 1 (see the counterexample). -/
theorem interactive_center_column_bounds (vw vh maxCols : Int) (g : Geom) (el : Element)
    (hg : gridGeom vw vh maxCols = some g) (hvw : 0 < vw) (hmc : 0 < maxCols)
    (hx : 0 ≤ el.x) (hw : 1 ≤ el.w) (hxw : el.x + el.w ≤ vw)
    (hy : 0 ≤ el.y) (hh : 0 ≤ el.h) :
    0 ≤ (mkEntry g el).gc ∧ (mkEntry g el).gc ≤ g.cols - 1 ∧ 0 ≤ (mkEntry g el).gr := by
  have hc : 0 < min maxCols vw := lt_min hmc hvw
  have heq := gridGeom_eq_some vw vh maxCols (by omega) (by omega)
  rw [hg] at heq
  have hgeq := Option.some.inj heq
  subst hgeq
  dsimp only [mkEntry]
  obtain ⟨h1, h2⟩ := tdiv_center_bounds el.x el.w vw (min maxCols vw) hvw hc hx hw hxw
  refine ⟨h1, by omega, ?_⟩
  exact Int.tdiv_nonneg (mul_nonneg (by omega) (by omega)) (by omega)

theorem interactive_center_column_bounds_witness :
    0 ≤ (mkEntry { vw := 1920, cols := 160, rows := 90 }
      { x := 0, y := 0, w := 24, h := 24, kind := some Kind.B, interactive := true,
        label := ("Go") }).gc ∧
    (mkEntry { vw := 1920, cols := 160, rows := 90 }
      { x := 0, y := 0, w := 24, h := 24, kind := some Kind.B, interactive := true,
        label := ("Go") }).gc ≤ (Geom.cols { vw := 1920, cols := 160, rows := 90 }) - 1 ∧
    0 ≤ (mkEntry { vw := 1920, cols := 160, rows := 90 }
      { x := 0, y := 0, w := 24, h := 24, kind := some Kind.B, interactive := true,
        label := ("Go") }).gr :=
  interactive_center_column_bounds 1920 1080 160 { vw := 1920, cols := 160, rows := 90 }
    { x := 0, y := 0, w := 24, h := 24, kind := some Kind.B, interactive := true,
      label := ("Go") }
    (by decide) (by decide) (by decide) (by decide) (by decide) (by decide) (by decide)
    (by decide)

theorem digitChar_isDigit (d : Nat) (h : d < 10) : (digitChar d).isDigit = true := by
  interval_cases d <;> decide

theorem digitChar_toNat (d : Nat) (h : d < 10) : (digitChar d).toNat - 48 = d := by
  interval_cases d <;> decide

theorem natDigsAux_lt (fuel : Nat) :
    ∀ n, ∀ d ∈ natDigsAux fuel n, d < 10 := by
  induction fuel with
  | zero =>
    intro n d hd
    simp [natDigsAux] at hd
  | succ fuel ih =>
    intro n d hd
    simp only [natDigsAux] at hd
    by_cases h0 : n = 0
    · rw [if_pos h0] at hd
      simp at hd
    · rw [if_neg h0] at hd
      rcases List.mem_append.mp hd with h1 | h2
      · exact ih _ d h1
      · have hd2 : d = n % 10 := by simpa using h2
        omega

theorem valFold_natDigsAux (fuel : Nat) :
    ∀ n acc, n ≤ fuel →
      List.foldl (fun x d => 10 * x + d) acc (natDigsAux fuel n) =
        acc * 10 ^ (natDigsAux fuel n).length + n := by
  induction fuel with
  | zero =>
    intro n acc h
    have h0 : n = 0 := by omega
    subst h0
    simp [natDigsAux]
  | succ fuel ih =>
    intro n acc h
    by_cases h0 : n = 0
    · subst h0
      simp [natDigsAux]
    · have hle : n / 10 ≤ fuel := by
        have hdl : n / 10 < n := Nat.div_lt_self (Nat.pos_of_ne_zero h0) (by omega)
        omega
      simp only [natDigsAux, if_neg h0]
      rw [List.foldl_append, ih (n / 10) acc hle]
      simp only [List.foldl_cons, List.foldl_nil, List.length_append, List.length_cons,
        List.length_nil, Nat.zero_add]
      rw [pow_succ, ← mul_assoc]
      generalize acc * 10 ^ (natDigsAux fuel (n / 10)).length = B
      omega

theorem natDigs_ne_nil (n : Nat) (h : 0 < n) : natDigs n ≠ [] := by
  unfold natDigs
  cases n with
  | zero => omega
  | succ m =>
    simp only [natDigsAux, if_neg (Nat.succ_ne_zero m)]
    simp

theorem decodeFold_shift (l : List Char) :
    ∀ (out : List Char) (st : Option (Char × Option Nat)),
      l.foldl (fun acc c => (acc.1 ++ (decodeStep acc.2 c).1, (decodeStep acc.2 c).2)) (out, st) =
        (out ++ (decodeFold st l).1, (decodeFold st l).2) := by
  induction l with
  | nil =>
    intro out st
    simp [decodeFold]
  | cons c l ih =>
    intro out st
    have hrhs : decodeFold st (c :: l) =
        ((decodeStep st c).1 ++ (decodeFold (decodeStep st c).2 l).1,
         (decodeFold (decodeStep st c).2 l).2) := by
      show List.foldl
          (fun acc c => (acc.1 ++ (decodeStep acc.2 c).1, (decodeStep acc.2 c).2))
          ([], st) (c :: l) = _
      rw [List.foldl_cons]
      dsimp only
      rw [ih]
      simp
    rw [List.foldl_cons]
    dsimp only
    rw [ih, hrhs]
    simp

theorem decodeFold_cons (st : Option (Char × Option Nat)) (c : Char) (l : List Char) :
    decodeFold st (c :: l) =
      ((decodeStep st c).1 ++ (decodeFold (decodeStep st c).2 l).1,
       (decodeFold (decodeStep st c).2 l).2) := by
  show List.foldl
      (fun acc c => (acc.1 ++ (decodeStep acc.2 c).1, (decodeStep acc.2 c).2))
      ([], st) (c :: l) = _
  rw [List.foldl_cons]
  dsimp only
  rw [decodeFold_shift]
  simp

theorem decodeFold_append (st : Option (Char × Option Nat)) (l1 l2 : List Char) :
    decodeFold st (l1 ++ l2) =
      ((decodeFold st l1).1 ++ (decodeFold (decodeFold st l1).2 l2).1,
       (decodeFold (decodeFold st l1).2 l2).2) := by
  show List.foldl
      (fun acc c => (acc.1 ++ (decodeStep acc.2 c).1, (decodeStep acc.2 c).2))
      ([], st) (l1 ++ l2) = _
  rw [List.foldl_append]
  exact decodeFold_shift l2 (decodeFold st l1).1 (decodeFold st l1).2

theorem decodeFold_digits_some (g0 : Char) :
    ∀ (ds : List Nat) (x : Nat), (∀ d ∈ ds, d < 10) →
      decodeFold (some (g0, some x)) (ds.map digitChar) =
        ([], some (g0, some (ds.foldl (fun y d => 10 * y + d) x))) := by
  intro ds
  induction ds with
  | nil =>
    intro x h
    simp [decodeFold]
  | cons d ds2 ih =>
    intro x h
    have hd := h d (List.mem_cons_self _ _)
    rw [List.map_cons, decodeFold_cons]
    have hstep : decodeStep (some (g0, some x)) (digitChar d) =
        ([], some (g0, some (10 * x + d))) := by
      unfold decodeStep
      rw [if_pos (digitChar_isDigit d hd)]
      simp [digitChar_toNat d hd]
    rw [hstep]
    dsimp only
    rw [ih (10 * x + d) (fun d2 h2 => h d2 (List.mem_cons_of_mem _ h2))]
    simp

theorem decodeFold_digits_first (g0 : Char) (d : Nat) (ds2 : List Nat)
    (h : ∀ x ∈ d :: ds2, x < 10) :
    decodeFold (some (g0, none)) ((d :: ds2).map digitChar) =
      ([], some (g0, some ((d :: ds2).foldl (fun y x => 10 * y + x) 0))) := by
  have hd := h d (List.mem_cons_self _ _)
  rw [List.map_cons, decodeFold_cons]
  have hstep : decodeStep (some (g0, none)) (digitChar d) = ([], some (g0, some d)) := by
    unfold decodeStep
    rw [if_pos (digitChar_isDigit d hd)]
    simp [digitChar_toNat d hd]
  rw [hstep]
  dsimp only
  rw [decodeFold_digits_some g0 ds2 d (fun x hx => h x (List.mem_cons_of_mem _ hx))]
  simp

theorem decodeFold_rleSeg (cur : Char) (count : Nat) (st : Option (Char × Option Nat))
    (hcount : 1 ≤ count) (hcur : cur.isDigit = false) :
    ∃ s : Option (Char × Option Nat),
      decodeFold st (rleSeg cur count) = (flushRun st, s) ∧
      flushRun s = List.replicate count cur := by
  have hstep : decodeStep st cur = (flushRun st, some (cur, none)) := by
    unfold decodeStep
    rw [if_neg (by simp [hcur])]
  unfold rleSeg
  by_cases h1 : count = 1
  · subst h1
    rw [if_pos rfl, decodeFold_cons, hstep]
    exact ⟨some (cur, none), by simp [decodeFold], by simp [flushRun]⟩
  · rw [if_neg h1, decodeFold_cons, hstep]
    dsimp only
    unfold decimalChars
    have hpos : 0 < count := by omega
    obtain ⟨d, ds2, hds⟩ : ∃ d ds2, natDigs count = d :: ds2 := by
      cases hnd : natDigs count with
      | nil => exact absurd hnd (natDigs_ne_nil count hpos)
      | cons d ds2 => exact ⟨d, ds2, rfl⟩
    rw [hds]
    have hlt : ∀ x ∈ d :: ds2, x < 10 := by
      intro x hx
      exact natDigsAux_lt count count x (by rw [show natDigsAux count count = d :: ds2 from hds] at *; exact hx)
    rw [decodeFold_digits_first cur d ds2 hlt]
    have hv : (d :: ds2).foldl (fun y x => 10 * y + x) 0 = count := by
      have hvf := valFold_natDigsAux count count 0 (le_refl _)
      rw [show natDigsAux count count = d :: ds2 from hds] at hvf
      simpa using hvf
    refine ⟨some (cur, some ((d :: ds2).foldl (fun y x => 10 * y + x) 0)), by simp, ?_⟩
    rw [hv]
    rfl

theorem rleRun_decode :
    ∀ (rest : List Char) (cur : Char) (count : Nat) (st : Option (Char × Option Nat)),
      1 ≤ count → cur.isDigit = false → (∀ c ∈ rest, c.isDigit = false) →
      (decodeFold st (rleRun cur count rest)).1 ++
          flushRun (decodeFold st (rleRun cur count rest)).2 =
        flushRun st ++ List.replicate count cur ++ rest := by
  intro rest
  induction rest with
  | nil =>
    intro cur count st hcount hcur hrest
    rw [rleRun]
    obtain ⟨s, hdf, hfl⟩ := decodeFold_rleSeg cur count st hcount hcur
    rw [hdf]
    dsimp only
    rw [hfl]
    simp
  | cons ch rest ih =>
    intro cur count st hcount hcur hrest
    have hch : ch.isDigit = false := hrest ch (List.mem_cons_self _ _)
    have hrest' : ∀ c ∈ rest, c.isDigit = false :=
      fun c h => hrest c (List.mem_cons_of_mem _ h)
    rw [rleRun]
    by_cases he : ch = cur
    · rw [if_pos he]
      rw [ih cur (count + 1) st (by omega) hcur hrest']
      subst he
      rw [List.replicate_succ']
      simp
    · rw [if_neg he]
      rw [decodeFold_append]
      obtain ⟨s, hdf, hfl⟩ := decodeFold_rleSeg cur count st hcount hcur
      rw [hdf]
      dsimp only
      rw [List.append_assoc, ih ch 1 s (le_refl _) hch hrest', hfl]
      simp

theorem glyph_not_digit : ∀ c ∈ glyphChars, c.isDigit = false := by decide

/-- C4: for every glyph row, the sparse encoder emits each maximal run of n
identical characters as the character alone when n = 1 and as the character
followed by its decimal count when n > 1, and decoding the produced row
string reproduces exactly the original glyph row. -/
theorem rle_round_trip (row : List Char) (hrow : ∀ c ∈ row, c ∈ glyphChars) :
    rleDecode (rleRowChars row) = row := by
  have hnd : ∀ c ∈ row, c.isDigit = false := fun c h => glyph_not_digit c (hrow c h)
  cases row with
  | nil => rfl
  | cons c rest =>
    show (decodeFold none (rleRun c 1 rest)).1 ++
        flushRun (decodeFold none (rleRun c 1 rest)).2 = c :: rest
    have h := rleRun_decode rest c 1 none (le_refl _) (hnd c (List.mem_cons_self _ _))
      (fun x hx => hnd x (List.mem_cons_of_mem _ hx))
    simpa [flushRun] using h

theorem rle_round_trip_witness :
    rleDecode (rleRowChars
      ['B', 'B', 'B', '@', '@', '.', '.', '.', '.', '.', '.', '.', '.', '.', '.', '.', '.']) =
      ['B', 'B', 'B', '@', '@', '.', '.', '.', '.', '.', '.', '.', '.', '.', '.', '.', '.'] :=
  rle_round_trip
    ['B', 'B', 'B', '@', '@', '.', '.', '.', '.', '.', '.', '.', '.', '.', '.', '.', '.']
    (by decide)

/-- C5 counterexample: with viewport 4x16 and max_cols = 1 the sparse body is
one maximal run of four identical blank rows (k = 4 > 2), emitted as the
single line r0-3: (empty) with no (x4) suffix, refuting the claimed k > 2
suffix for blank rows. -/
theorem sparse_empty_run_no_suffix_counterexample :
    renderSparseLines { vw := 4, vh := 16, count := 0, elements := [] } ("") ("") 1 false =
      some [("=== DOM Density Map (sparse) ==="),
        ("Viewport: 4x16  Grid: 1x4 (4px/cell)"),
        ("Elements: 0 visible, 0 interactive"),
        ("Key: _=empty .=1 :=2-3 #=4-7 @=8+ B=btn L=link F=input I=img T=text"),
        ("RLE: X5 = XXXXX"),
        (""),
        ("r0-3: (empty)")] ∧
    ("r0-3: (empty)") ≠ ("r0-3: (empty)  (x4)") := by
  exact ⟨by rfl, by decide⟩

theorem formatRun_eq_specLine (i k : Nat) (row enc : List Char) :
    formatRun i k row enc = specLine (i, k, row, enc) := rfl

theorem emitAux_spec :
    ∀ (rest : List (List Char × List Char)) (i : Nat) (row0 rle : List Char) (count : Nat),
      emitAux i row0 rle count rest =
        specLine (i, count + (rest.takeWhile (fun q => q.2 == rle)).length, row0, rle) ::
          (specRuns (i + (count + (rest.takeWhile (fun q => q.2 == rle)).length))
            (rest.dropWhile (fun q => q.2 == rle))).map specLine := by
  intro rest
  induction rest with
  | nil =>
    intro i row0 rle count
    simp [emitAux, formatRun_eq_specLine, specRuns]
  | cons pr rest ih =>
    intro i row0 rle count
    rw [emitAux]
    by_cases he : pr.2 = rle
    · rw [if_pos he]
      rw [ih i row0 rle (count + 1)]
      have ht : (pr :: rest).takeWhile (fun q => q.2 == rle) =
          pr :: rest.takeWhile (fun q => q.2 == rle) := by
        rw [List.takeWhile_cons, if_pos (by simp [he])]
      have hd : (pr :: rest).dropWhile (fun q => q.2 == rle) =
          rest.dropWhile (fun q => q.2 == rle) := by
        rw [List.dropWhile_cons, if_pos (by simp [he])]
      rw [ht, hd, List.length_cons]
      have hc : count + 1 + (rest.takeWhile (fun q => q.2 == rle)).length =
          count + ((rest.takeWhile (fun q => q.2 == rle)).length + 1) := by omega
      rw [hc]
    · rw [if_neg he]
      have ht : (pr :: rest).takeWhile (fun q => q.2 == rle) = [] := by
        rw [List.takeWhile_cons, if_neg (by simp [he])]
      have hd : (pr :: rest).dropWhile (fun q => q.2 == rle) = pr :: rest := by
        rw [List.dropWhile_cons, if_neg (by simp [he])]
      rw [ht, hd, List.length_nil, Nat.add_zero, specRuns, List.map_cons]
      rw [ih (i + count) pr.1 pr.2 1, formatRun_eq_specLine]
      have hc : 1 + (rest.takeWhile (fun q => q.2 == pr.2)).length =
          (rest.takeWhile (fun q => q.2 == pr.2)).length + 1 := by omega
      rw [hc]

/-- C5 amended: in sparse output every maximal run of k consecutive rows with
byte-identical encoded strings starting at row index i is emitted as exactly
one line, in order: r i: enc when k = 1, r i-(i+k-1): enc when k = 2, and
r i-(i+k-1): enc  (x k) when k > 2; a row composed entirely of the blank
glyph renders as (empty) instead of its run-length string, under the same
row-range collapsing, but such a row never takes the (x k) suffix. -/
theorem sparse_row_runs_format (charRows : List (List Char)) :
    emitRows charRows =
      (specRuns 0 (charRows.map (fun row => (row, rleRowChars row)))).map specLine := by
  cases charRows with
  | nil => simp [emitRows, specRuns]
  | cons row rows =>
    have h1 : emitRows (row :: rows) =
        emitAux 0 row (rleRowChars row) 1
          (rows.map (fun r => (r, rleRowChars r))) := rfl
    rw [h1, emitAux_spec, List.map_cons, specRuns, List.map_cons]
    have hc : 1 + ((rows.map (fun r => (r, rleRowChars r))).takeWhile
          (fun q => q.2 == rleRowChars row)).length =
        ((rows.map (fun r => (r, rleRowChars r))).takeWhile
          (fun q => q.2 == rleRowChars row)).length + 1 := by omega
    rw [hc]

theorem strJoin_data (sep : String) :
    ∀ (r : List String) (a : String),
      ∃ t : List Char, (strJoin sep (a :: r)).data = a.data ++ t := by
  intro r
  induction r with
  | nil =>
    intro a
    exact ⟨[], by simp [strJoin]⟩
  | cons b r ih =>
    intro a
    obtain ⟨t, ht⟩ := ih (a ++ sep ++ b)
    refine ⟨sep.data ++ b.data ++ t, ?_⟩
    have h1 : strJoin sep (a :: b :: r) = strJoin sep ((a ++ sep ++ b) :: r) := rfl
    rw [h1, ht]
    simp [String.data_append]

theorem isHeaderLine_headerLine (i : Nat) (el : PointEl) :
    isHeaderLine (headerLine i el) = true := by
  unfold headerLine
  obtain ⟨t, ht⟩ := strJoin_data (" ")
    ((if truthy el.eid then [("id=\"") ++ el.eid.getD ("") ++ ("\"")] else []) ++
     (if truthy el.role then [("role=\"") ++ el.role.getD ("") ++ ("\"")] else []) ++
     (if truthy el.dataE2e then [("data-e2e=\"") ++ el.dataE2e.getD ("") ++ ("\"")] else []))
    (("[") ++ toString i ++ ("] <") ++ el.tag ++ (">"))
  unfold isHeaderLine
  rw [ht]
  simp only [String.data_append]
  rfl

theorem isHeaderLine_append2_false (p s q : String) (c : Char) (rest : List Char)
    (hp : p.data = c :: rest) (hc : (c == Char.ofNat 91) = false) :
    isHeaderLine ((p ++ s) ++ q) = false := by
  unfold isHeaderLine
  rw [String.data_append, String.data_append, hp]
  simpa using hc

theorem isHeaderLine_append_false (p s : String) (c : Char) (rest : List Char)
    (hp : p.data = c :: rest) (hc : (c == '[') = false) :
    isHeaderLine (p ++ s) = false := by
  unfold isHeaderLine
  rw [String.data_append, hp]
  simpa using hc

theorem filter_ite_single (p : String → Bool) (c : Prop) [Decidable c] (x : String)
    (hx : p x = false) : List.filter p (if c then [x] else []) = [] := by
  split
  · simp [hx]
  · rfl

theorem entryBlock_filter (i : Nat) (el : PointEl) :
    (entryBlock i el).filter isHeaderLine = [headerLine i el] := by
  have h1 : isHeaderLine (("     class: ") ++ el.cls.getD ("")) = false :=
    isHeaderLine_append_false _ _ ' ' _ rfl rfl
  have h2 : isHeaderLine (("     aria-label: \"") ++ el.aria.getD ("") ++ ("\"")) = false :=
    isHeaderLine_append2_false _ _ _ ' ' _ rfl rfl
  have h3 : isHeaderLine (("     href: ") ++ el.href.getD ("")) = false :=
    isHeaderLine_append_false _ _ ' ' _ rfl rfl
  have h4 : isHeaderLine (("     text: \"") ++ el.text.getD ("") ++ ("\"")) = false :=
    isHeaderLine_append2_false _ _ _ ' ' _ rfl rfl
  have h5 : isHeaderLine (("     aria-pressed: ") ++ el.pressed.getD ("")) = false :=
    isHeaderLine_append_false _ _ ' ' _ rfl rfl
  have h6 : isHeaderLine ("     contentEditable: true") = false := rfl
  have h7 : isHeaderLine ("     disabled: true") = false := rfl
  have h8 : isHeaderLine ("     cursor: pointer") = false := rfl
  have h9 : isHeaderLine (("     bg: ") ++ el.bg.getD ("")) = false :=
    isHeaderLine_append_false _ _ ' ' _ rfl rfl
  have h10 : isHeaderLine (("     color: ") ++ el.color.getD ("")) = false :=
    isHeaderLine_append_false _ _ ' ' _ rfl rfl
  have hrect : isHeaderLine (("     rect: (") ++ toString el.rx ++ (",") ++ toString el.ry ++
      (") ") ++ toString el.rw ++ ("x") ++ toString el.rh) = false := by
    unfold isHeaderLine
    simp only [String.data_append]
    rfl
  unfold entryBlock
  simp [List.filter_append, filter_ite_single, isHeaderLine_headerLine i el,
    h1, h2, h3, h4, h5, h6, h7, h8, h9, h10, hrect]

theorem renderLines_filter (els : List PointEl) :
    ∀ (pre : List String) (i : Nat),
      ((els.foldl (fun acc el => (acc.1 ++ entryBlock acc.2 el, acc.2 + 1)) (pre, i)).1).filter
          isHeaderLine =
        pre.filter isHeaderLine ++ (List.enumFrom i els).map (fun p => headerLine p.1 p.2) := by
  induction els with
  | nil =>
    intro pre i
    simp
  | cons el els ih =>
    intro pre i
    rw [List.foldl_cons]
    dsimp only
    rw [ih (pre ++ entryBlock i el) (i + 1)]
    rw [List.filter_append, entryBlock_filter i el, List.enumFrom_cons]
    simp

/-- C9 amended: the point-query formatter renders exactly one block per stack
entry, in the caller-supplied order, each block listing only the attributes
present on the entry; the formatter itself imposes no cap on the number of
entries rendered (the fixed 15-entry maximum of the pipeline is enforced
upstream by the element-stack producer, not here). -/
theorem point_query_block_per_entry (els : List PointEl) (px py : Int) :
    (renderElementsAtLines els px py).filter isHeaderLine =
      (List.enumFrom 0 els).map (fun p => headerLine p.1 p.2) ∧
    (renderElementsAtLines els px py).countP isHeaderLine = els.length := by
  have hpre1 : isHeaderLine (("=== Elements at px(") ++ toString px ++ (",") ++ toString py ++
      (") ===")) = false := by
    unfold isHeaderLine
    simp only [String.data_append]
    rfl
  have hpre2 : isHeaderLine (("Stack depth: ") ++ toString els.length) = false :=
    isHeaderLine_append_false _ _ 'S' _ rfl rfl
  have hmain := renderLines_filter els
    [("=== Elements at px(") ++ toString px ++ (",") ++ toString py ++ (") ==="),
     ("Stack depth: ") ++ toString els.length,
     ("")] 0
  have hfil : (renderElementsAtLines els px py).filter isHeaderLine =
      (List.enumFrom 0 els).map (fun p => headerLine p.1 p.2) := by
    unfold renderElementsAtLines
    rw [hmain]
    simp [List.filter_cons, hpre1, hpre2]
    rfl
  refine ⟨hfil, ?_⟩
  rw [List.countP_eq_length_filter, hfil, List.length_map, List.enumFrom_length]

/-- C9 counterexample: render_elements_at renders every entry of a 16-entry
stack (16 block headers), refuting the claimed fixed maximum of 15 entries
rendered by the formatter. -/
theorem point_query_no_entry_cap_counterexample :
    (renderElementsAtLines
      (List.replicate 16
        { tag := ("div"), eid := none, role := none, dataE2e := none, cls := none,
          aria := none, href := none, text := none, pressed := none, editable := false,
          disabled := false, clickable := false, bg := none, color := none,
          rx := 0, ry := 0, rw := 0, rh := 0 }) 0 0).countP isHeaderLine = 16 ∧
    ¬(16 ≤ 15) :=
  ⟨by decide, by decide⟩

